import Mathlib

/-!
Verification of the spectroperf workload engine.

Shallow Lean embeddings of the engine's core pieces, translated from the Go
sources: the phase classifier `MetricState` (workload/metrics.go), the Markov
transition sampler `getNextOperation` and the user-runner loop body
(workload runner), probability-matrix validation and construction
(spectroperf.go), the setup loader's event order, and the run context
(workload/utils.go).  Machine floating-point probabilities are embedded as
exact rationals; wall-clock instants and durations as signed integers
(mirroring Go's signed `time.Duration`).  Theorems settle the specification's
claims about these definitions.
-/

namespace Spectroperf

/-- The three metric phases of workload/metrics.go: `RampUp`, `Steady`,
`RampDown`. -/
inductive OperationPhase where
  | RampUp
  | Steady
  | RampDown
deriving DecidableEq, Repr

/-- Embedding of `MetricState` (workload/metrics.go): `phase := Steady;
if now.Sub(start) < rampTime { phase = RampUp } else if end.Sub(now) <
rampTime { phase = RampDown }`.  Instants and durations are signed integers,
as Go's `time.Duration` is a signed count of nanoseconds. -/
def MetricState (start stop now rampTime : ℤ) : OperationPhase :=
  if now - start < rampTime then OperationPhase.RampUp
  else if stop - now < rampTime then OperationPhase.RampDown
  else OperationPhase.Steady

/-- The walk inside `getNextOperation` (workload runner): scan the row with
running index `i` and cumulative sum `c`; on exhaustion return the fallback
`fb` (the caller passes `len(probRow) - 1`). -/
def gnoWalk (randVal : ℚ) : List ℚ → ℕ → ℚ → ℕ → ℕ
  | [], _, _, fb => fb
  | prob :: rest, i, c, fb =>
    if randVal < c + prob then i else gnoWalk randVal rest (i + 1) (c + prob) fb

/-- Embedding of `getNextOperation(currOpIndex, probabilities, r)` (workload
runner): take the row of the current operation, draw `randVal`, and walk the
row accumulating a cumulative sum, returning the first index whose cumulative
sum exceeds the draw; fall back to the last index. -/
def getNextOperation (currOpIndex : ℕ) (probabilities : List (List ℚ)) (randVal : ℚ) : ℕ :=
  let probRow := probabilities.getD currOpIndex []
  gnoWalk randVal probRow 0 0 (probRow.length - 1)

/-- `cumSum row j` is the cumulative sum `row[0] + … + row[j]` that the
sampler's walk has accumulated after reading entry `j`. -/
def cumSum (row : List ℚ) (j : ℕ) : ℚ := (row.take (j + 1)).sum

lemma gnoWalk_notfound (u : ℚ) :
    ∀ (rest : List ℚ) (i : ℕ) (c : ℚ) (fb : ℕ),
      (∀ j, j < rest.length → ¬ u < c + (rest.take (j + 1)).sum) →
      gnoWalk u rest i c fb = fb := by
  intro rest
  induction rest with
  | nil => intro i c fb _; rfl
  | cons p rest ih =>
    intro i c fb h
    have h0 : ¬ u < c + p := by
      have := h 0 (Nat.succ_le_succ (Nat.zero_le _))
      simpa using this
    rw [gnoWalk, if_neg h0]
    refine ih (i + 1) (c + p) fb ?_
    intro j hj
    have := h (j + 1) (Nat.succ_lt_succ hj)
    simpa [add_assoc] using this

lemma gnoWalk_found (u : ℚ) :
    ∀ (rest : List ℚ) (j i : ℕ) (c : ℚ) (fb : ℕ),
      j < rest.length → u < c + (rest.take (j + 1)).sum →
      (∀ j', j' < j → ¬ u < c + (rest.take (j' + 1)).sum) →
      gnoWalk u rest i c fb = i + j := by
  intro rest
  induction rest with
  | nil => intro j i c fb hj; exact absurd hj (Nat.not_lt_zero j)
  | cons p rest ih =>
    intro j i c fb hj hu hmin
    cases j with
    | zero =>
      have hu0 : u < c + p := by simpa using hu
      rw [gnoWalk, if_pos hu0, Nat.add_zero]
    | succ j' =>
      have h0 : ¬ u < c + p := by
        have := hmin 0 (Nat.succ_pos j')
        simpa using this
      rw [gnoWalk, if_neg h0]
      have hres := ih j' (i + 1) (c + p) fb (Nat.lt_of_succ_lt_succ hj)
        (by simpa [add_assoc] using hu)
        (by
          intro j'' hj''
          have := hmin (j'' + 1) (Nat.succ_lt_succ hj'')
          simpa [add_assoc] using this)
      rw [hres]
      omega

/-- C1: for the row `P[i]` of the probability matrix (non-empty, entries
non-negative) and a uniform draw `u ∈ [0,1)`, `getNextOperation` returns the
smallest index `j` with `u < P[i][0] + … + P[i][j]`, and when no cumulative
sum exceeds `u` it returns the last index `len(P[i]) - 1`. -/
theorem getNextOperation_least (P : List (List ℚ)) (idx : ℕ) (row : List ℚ) (u : ℚ)
    (hrow : P.get? idx = some row) (hne : row ≠ [])
    (hnn : ∀ q ∈ row, 0 ≤ q) (hu0 : 0 ≤ u) (hu1 : u < 1) :
    (∀ j, j < row.length → u < cumSum row j → (∀ i, i < j → ¬ u < cumSum row i) →
      getNextOperation idx P u = j) ∧
    ((∀ j, j < row.length → ¬ u < cumSum row j) →
      getNextOperation idx P u = row.length - 1) := by
  have hget : P.getD idx [] = row := by
    rw [List.getD_eq_getD_get?, hrow]
    rfl
  constructor
  · intro j hj hu hmin
    show gnoWalk u (P.getD idx []) 0 0 ((P.getD idx []).length - 1) = j
    rw [hget]
    have := gnoWalk_found u row j 0 0 (row.length - 1) hj
      (by simpa [cumSum] using hu)
      (by
        intro i hi
        have := hmin i hi
        simpa [cumSum] using this)
    simpa using this
  · intro hnone
    show gnoWalk u (P.getD idx []) 0 0 ((P.getD idx []).length - 1) = row.length - 1
    rw [hget]
    exact gnoWalk_notfound u row 0 0 (row.length - 1)
      (by
        intro j hj
        have := hnone j hj
        simpa [cumSum] using this)

/-- Witness for C1 at the concrete row `[1/2, 1/2]` and draw `u = 1/4`:
the sampler picks index 0, the smallest index whose cumulative sum `1/2`
exceeds the draw. -/
theorem getNextOperation_least_witness :
    getNextOperation 0 [[(1 : ℚ)/2, 1/2]] (1/4) = 0 := by
  have h := (getNextOperation_least [[(1 : ℚ)/2, 1/2]] 0 [(1 : ℚ)/2, 1/2] (1/4)
      rfl (by simp) (by norm_num) (by norm_num) (by norm_num)).1
  exact h 0 (by simp) (by norm_num [cumSum]) (fun i hi => absurd hi (Nat.not_lt_zero i))

/-- C4 counterexample: with `rampTime = 0` the classifier does not return
`Steady` for every `now` — at `start = 0`, `end = 10`, `now = 11` the signed
difference `end − now` is negative, hence below `rampTime = 0`, and the
classifier returns `RampDown`. -/
theorem MetricState_ramp_zero_cex :
    MetricState 0 10 11 0 = OperationPhase.RampDown ∧
    MetricState 0 10 11 0 ≠ OperationPhase.Steady := by
  constructor
  · rfl
  · decide

/-- C4 (amended): the classifier returns `RampUp` exactly when
`now − start < rampTime`, else `RampDown` exactly when `end − now < rampTime`,
else `Steady`; and with `rampTime = 0` it returns `Steady` for every `now`
lying between `start` and `end` (outside that window a signed difference is
negative, so `RampUp` or `RampDown` is returned instead). -/
theorem MetricState_correct (start stop now rampTime : ℤ) :
    (MetricState start stop now rampTime = OperationPhase.RampUp ↔
      now - start < rampTime) ∧
    (MetricState start stop now rampTime = OperationPhase.RampDown ↔
      (¬ now - start < rampTime ∧ stop - now < rampTime)) ∧
    (MetricState start stop now rampTime = OperationPhase.Steady ↔
      (¬ now - start < rampTime ∧ ¬ stop - now < rampTime)) ∧
    (rampTime = 0 → start ≤ now → now ≤ stop →
      MetricState start stop now rampTime = OperationPhase.Steady) := by
  by_cases h1 : now - start < rampTime
  · simp [MetricState, h1]
    omega
  · by_cases h2 : stop - now < rampTime
    · simp [MetricState, h1, h2]
      omega
    · simp [MetricState, h1, h2]

/-- The row checks of `validateMarkovChain` (spectroperf.go): for each row,
its length must equal the number of workload operations and its entries must
sum to exactly 1 (the Go code compares the accumulated float sum with `1`
under strict equality; the embedding uses exact rationals). -/
def validateRows (workloadOperations : ℕ) : List (List ℚ) → Except String Unit
  | [] => Except.ok ()
  | row :: rest =>
    if row.length ≠ workloadOperations then
      Except.error "Markov chain must be square array with dimensions equal to number of workload functions"
    else if row.sum ≠ 1 then
      Except.error "Markov Chain row does not sum to 1"
    else validateRows workloadOperations rest

/-- Embedding of `validateMarkovChain(workloadOperations, mChain)`
(spectroperf.go): the matrix must have as many rows as workload operations,
and every row must pass `validateRows`. -/
def validateMarkovChain (workloadOperations : ℕ) (mChain : List (List ℚ)) : Except String Unit :=
  if mChain.length ≠ workloadOperations then
    Except.error "Markov chain must be square array with dimensions equal to number of workload functions"
  else validateRows workloadOperations mChain

lemma validateRows_ok_iff (k : ℕ) :
    ∀ (rows : List (List ℚ)),
      validateRows k rows = Except.ok () ↔ ∀ row ∈ rows, row.length = k ∧ row.sum = 1 := by
  intro rows
  induction rows with
  | nil => simp [validateRows]
  | cons row rest ih =>
    by_cases hl : row.length = k
    · by_cases hs : row.sum = 1
      · simp [validateRows, hl, hs, ih]
      · simp [validateRows, hl, hs]
    · simp [validateRows, hl]

/-- C7: a user-supplied Markov chain is accepted exactly when it has as many
rows as workload operations and every row has that many columns and sums to
exactly 1; in particular the 1×1 matrix whose row sums to `1 − 10⁻¹²` is
rejected. -/
theorem validateMarkovChain_ok_iff (k : ℕ) (mChain : List (List ℚ)) :
    (validateMarkovChain k mChain = Except.ok () ↔
      (mChain.length = k ∧ ∀ row ∈ mChain, row.length = k ∧ row.sum = 1)) ∧
    validateMarkovChain 1 [[1 - 1/1000000000000]] ≠ Except.ok () := by
  constructor
  · by_cases hk : mChain.length = k
    · simp [validateMarkovChain, hk, validateRows_ok_iff]
    · simp [validateMarkovChain, hk]
  · intro h
    rw [validateMarkovChain] at h
    simp only [List.length_cons, List.length_nil, zero_add] at h
    rw [if_neg (by norm_num)] at h
    rw [validateRows] at h
    rw [if_neg (by norm_num)] at h
    rw [if_pos (by norm_num)] at h
    exact Except.noConfusion h

/-- The scan inside `slices.Index` (used by `buildMarkovChain` in
spectroperf.go): return the index, counting from `i`, of the first element
equal to `x`, and `-1` when there is none. -/
def slicesIndexFrom (x : String) : List String → ℤ → ℤ
  | [], _ => -1
  | y :: rest, i => if y = x then i else slicesIndexFrom x rest (i + 1)

/-- `slices.Index(operations, operation)`: the index of the first occurrence,
or `-1` when the element is absent. -/
def slicesIndex (x : String) (l : List String) : ℤ := slicesIndexFrom x l 0

/-- Embedding of `buildMarkovChain(operation, w)` (spectroperf.go): look the
operation up in the workload's operation list; on `-1` return the error, else
build one row holding `1.0` at the operation's index and `0` elsewhere, and
use that row for every row of the matrix. -/
def buildMarkovChain (operation : String) (operations : List String) :
    Except String (List (List ℚ)) :=
  let opIndex := slicesIndex operation operations
  if opIndex = -1 then
    Except.error ("Chosen only-operation '" ++ operation ++ "' is not supported by workload")
  else
    let row := (List.range operations.length).map fun i : ℕ => if (i : ℤ) = opIndex then (1 : ℚ) else 0
    Except.ok (List.replicate operations.length row)

lemma slicesIndexFrom_absent (x : String) :
    ∀ (l : List String) (i : ℤ), x ∉ l → slicesIndexFrom x l i = -1 := by
  intro l
  induction l with
  | nil => intro i _; rfl
  | cons y rest ih =>
    intro i hx
    have hyx : y ≠ x := fun h => hx (h ▸ List.mem_cons_self y rest)
    have hrest : x ∉ rest := fun h => hx (List.mem_cons_of_mem y h)
    rw [slicesIndexFrom, if_neg hyx]
    exact ih (i + 1) hrest

lemma slicesIndexFrom_first (x : String) :
    ∀ (l : List String) (m : ℕ) (i : ℤ),
      l.get? m = some x → x ∉ l.take m → slicesIndexFrom x l i = i + m := by
  intro l
  induction l with
  | nil => intro m i hm; simp at hm
  | cons y rest ih =>
    intro m i hm hfirst
    cases m with
    | zero =>
      have : y = x := by simpa using hm
      rw [slicesIndexFrom, if_pos this]
      simp
    | succ m =>
      have hyx : y ≠ x := by
        intro h
        exact hfirst (by simp [List.take_succ_cons, h])
      have hrest : x ∉ rest.take m := fun h =>
        hfirst (by simp [List.take_succ_cons]; exact Or.inr h)
      rw [slicesIndexFrom, if_neg hyx]
      have := ih m (i + 1) (by simpa using hm) hrest
      rw [this]
      push_cast
      ring

/-- C8: when the chosen operation occurs in the workload's operation list at
index `m` (its first occurrence, operation names being distinct), the
single-operation Markov chain is the `k×k` matrix whose every row is the
one-hot vector at `m`; when the operation does not occur, an error (fatal at
startup) is returned. -/
theorem buildMarkovChain_correct (operations : List String) (operation : String) :
    (∀ m, operations.get? m = some operation → operation ∉ operations.take m →
      buildMarkovChain operation operations =
        Except.ok (List.replicate operations.length
          ((List.range operations.length).map fun i => if i = m then (1 : ℚ) else 0))) ∧
    (operation ∉ operations →
      buildMarkovChain operation operations =
        Except.error ("Chosen only-operation '" ++ operation ++ "' is not supported by workload")) := by
  constructor
  · intro m hm hfirst
    have hidx : slicesIndex operation operations = (m : ℤ) := by
      have := slicesIndexFrom_first operation operations m 0 hm hfirst
      simpa [slicesIndex] using this
    have hne : slicesIndex operation operations ≠ -1 := by
      rw [hidx]; omega
    show (if slicesIndex operation operations = -1 then _ else _) = _
    rw [if_neg hne, hidx]
    have hfun : (fun i : ℕ => if (i : ℤ) = (m : ℤ) then (1 : ℚ) else 0) =
        fun i : ℕ => if i = m then (1 : ℚ) else 0 := by
      funext i
      simp [Int.natCast_inj]
    rw [hfun]
  · intro hx
    have hidx : slicesIndex operation operations = -1 :=
      slicesIndexFrom_absent operation operations 0 hx
    show (if slicesIndex operation operations = -1 then _ else _) = _
    rw [if_pos hidx]

/-- Witness for C8 at the concrete workload operation list `["a", "b"]` and
chosen operation `"b"`: the built chain is 2×2 with every row `[0, 1]`. -/
theorem buildMarkovChain_correct_witness :
    buildMarkovChain "b" ["a", "b"] =
      Except.ok (List.replicate 2 ((List.range 2).map fun i => if i = 1 then (1 : ℚ) else 0)) := by
  have h := (buildMarkovChain_correct ["a", "b"] "b").1 1 rfl (by simp)
  simpa using h

/-- Configuration shared by all user runners: the workload's operation
names and probability matrix (runner), the run's start and end instants and
ramp duration (integer nanoseconds), and the think-time setting.
`sleepCfg` is `none` in random think-time mode.  The phase labelling and the
fixed-sleep mode are modelled from the spec (§4.7, §4.5): the repository's
phase-labelled runner is not among the staged sources, which hold only its
earlier operation-labelled version. -/
structure RunConfig where
  operations : List String
  probabilities : List (List ℚ)
  startTime : ℤ
  endTime : ℤ
  rampTime : ℤ
  sleepCfg : Option ℕ

/-- The values one iteration of a runner's loop consumes: the uniform draw
`u` for the transition sampler, the runner's raw think-time draw, the
wall-clock instants at which the iteration begins (attempt counted) and at
which the operation function returns, and whether the operation function
returned an error. -/
structure IterDraws where
  u : ℚ
  thinkDraw : ℕ
  attemptTime : ℤ
  finishTime : ℤ
  fails : Bool

/-- The observable actions of one loop iteration, in program order:
increment of the attempted counter, the think sleep, the invocation of the
operation function, the latency observation, and on failure the error log
and the failed-counter increment. -/
inductive RunEvent where
  | attemptInc (op : String) (ph : OperationPhase)
  | sleep (ms : ℕ)
  | invoke (op : String)
  | observe (op : String) (ph : OperationPhase)
  | logError (op : String)
  | failedInc (op : String) (ph : OperationPhase)
deriving DecidableEq, Repr

/-- A runner's state: the current operation index, the counter vectors
(attempted, failed), the histogram observation counts, how many times each
operation function has been invoked, and the emitted event list. -/
structure RunnerState where
  currOpIndex : ℕ
  attempted : String → OperationPhase → ℕ
  failed : String → OperationPhase → ℕ
  durObs : String → OperationPhase → ℕ
  invocations : String → ℕ
  events : List RunEvent

/-- Increment a labelled counter vector at one `(operation, phase)` label. -/
def bump2 (f : String → OperationPhase → ℕ) (o : String) (ph : OperationPhase) :
    String → OperationPhase → ℕ :=
  fun o' ph' => if o' = o ∧ ph' = ph then f o' ph' + 1 else f o' ph'

/-- Increment a per-operation counter. -/
def bump1 (f : String → ℕ) (o : String) : String → ℕ :=
  fun o' => if o' = o then f o' + 1 else f o'

/-- The think time before an operation: with no sleep configured, the random
mode of the runner draws `r.Int31n(5000-400) + 400`; a configured sleep is
used as-is (fixed mode, modelled from the spec §4.5). -/
def thinkDuration (cfg : RunConfig) (draw : ℕ) : ℕ :=
  match cfg.sleepCfg with
  | none => draw % 4600 + 400
  | some d => d

/-- The operation index one iteration transitions to. -/
def iterNextIndex (cfg : RunConfig) (st : RunnerState) (it : IterDraws) : ℕ :=
  getNextOperation st.currOpIndex cfg.probabilities it.u

/-- The operation name one iteration executes. -/
def iterOp (cfg : RunConfig) (st : RunnerState) (it : IterDraws) : String :=
  cfg.operations.getD (iterNextIndex cfg st it) ""

/-- The phase current when the iteration counts the attempt (before the
think sleep and the operation). -/
def attemptPhase (cfg : RunConfig) (it : IterDraws) : OperationPhase :=
  MetricState cfg.startTime cfg.endTime it.attemptTime cfg.rampTime

/-- The phase computed when the operation function has returned; the latency
observation and any failed-counter increment carry this phase. -/
def completePhase (cfg : RunConfig) (it : IterDraws) : OperationPhase :=
  MetricState cfg.startTime cfg.endTime it.finishTime cfg.rampTime

/-- One iteration of the runner loop's `default` branch: sample the next
operation, count the attempt under the phase at attempt time, think-sleep,
invoke the operation function once, observe its latency under the phase at
completion time, and on error log at error level and count the failure under
that same completion phase; then advance the Markov state. -/
def runIteration (cfg : RunConfig) (st : RunnerState) (it : IterDraws) : RunnerState :=
  let op := iterOp cfg st it
  let pa := attemptPhase cfg it
  let t := thinkDuration cfg it.thinkDraw
  let pc := completePhase cfg it
  { currOpIndex := iterNextIndex cfg st it
    attempted := bump2 st.attempted op pa
    failed := if it.fails then bump2 st.failed op pc else st.failed
    durObs := bump2 st.durObs op pc
    invocations := bump1 st.invocations op
    events := st.events ++
      [RunEvent.attemptInc op pa, RunEvent.sleep t, RunEvent.invoke op, RunEvent.observe op pc] ++
      (if it.fails then [RunEvent.logError op, RunEvent.failedInc op pc] else []) }

/-- A runner's initial state: Markov state 0, all counters zero, nothing
invoked, no events. -/
def initRunnerState : RunnerState :=
  { currOpIndex := 0
    attempted := fun _ _ => 0
    failed := fun _ _ => 0
    durObs := fun _ _ => 0
    invocations := fun _ => 0
    events := [] }

/-- Run a whole trace of loop iterations from the initial state. -/
def runTrace (cfg : RunConfig) (trace : List IterDraws) : RunnerState :=
  trace.foldl (runIteration cfg) initRunnerState

/-- All three phase label values. -/
def phasesAll : List OperationPhase :=
  [OperationPhase.RampUp, OperationPhase.Steady, OperationPhase.RampDown]

/-- A labelled counter vector totalled over the three phases of one
operation. -/
def totalPhases (f : String → OperationPhase → ℕ) (op : String) : ℕ :=
  (phasesAll.map fun ph => f op ph).sum

lemma totalPhases_bump2 (f : String → OperationPhase → ℕ) (o : String) (ph : OperationPhase)
    (op : String) :
    totalPhases (bump2 f o ph) op = totalPhases f op + (if op = o then 1 else 0) := by
  cases ph <;> by_cases h : op = o <;>
    simp [totalPhases, phasesAll, bump2, h] <;> omega

/-- C2 counterexample: an execution in which a failed-counter increment
carries a phase in which no attempt was counted.  One iteration begins in
`RampUp` (attempt counted under `RampUp`), its operation completes after the
ramp boundary and fails, so the failure is counted under `Steady`, where
`operations_failed_total = 1 > 0 = operations_total`. -/
theorem runner_failed_exceeds_attempted_cex :
    ¬ (∀ (cfg : RunConfig) (trace : List IterDraws) (op : String) (ph : OperationPhase),
        (runTrace cfg trace).failed op ph ≤ (runTrace cfg trace).attempted op ph) := by
  intro h
  have h2 := h ⟨["a"], [[1]], 0, 40, 10, none⟩ [⟨0, 0, 0, 20, true⟩] "a" OperationPhase.Steady
  have e1 : (runTrace ⟨["a"], [[1]], 0, 40, 10, none⟩ [⟨0, 0, 0, 20, true⟩]).failed "a"
      OperationPhase.Steady = 1 := by
    norm_num [runTrace, runIteration, initRunnerState, iterOp, iterNextIndex, getNextOperation,
      gnoWalk, attemptPhase, completePhase, MetricState, bump2, bump1, thinkDuration]
  have e2 : (runTrace ⟨["a"], [[1]], 0, 40, 10, none⟩ [⟨0, 0, 0, 20, true⟩]).attempted "a"
      OperationPhase.Steady = 0 := by
    norm_num [runTrace, runIteration, initRunnerState, iterOp, iterNextIndex, getNextOperation,
      gnoWalk, attemptPhase, completePhase, MetricState, bump2, bump1, thinkDuration]
    decide
  rw [e1, e2] at h2
  exact Nat.not_succ_le_zero 0 h2

/-- C2 (amended): per operation, totalled over the three phases, the failed
counter never exceeds the attempted counter in any execution of the runner
loop — each iteration adds one attempt for the operation it executes and at
most one failure for that same operation.  (Per `(operation, phase)` the
inequality can fail when an iteration's attempt and completion fall in
different phases, as the counterexample shows.) -/
theorem runner_failedTotal_le_attemptedTotal (cfg : RunConfig) (trace : List IterDraws)
    (op : String) :
    totalPhases (runTrace cfg trace).failed op ≤ totalPhases (runTrace cfg trace).attempted op := by
  suffices h : ∀ (st : RunnerState),
      (∀ o, totalPhases st.failed o ≤ totalPhases st.attempted o) →
      ∀ o, totalPhases (trace.foldl (runIteration cfg) st).failed o ≤
        totalPhases (trace.foldl (runIteration cfg) st).attempted o by
    exact h initRunnerState (fun o => le_refl _) op
  induction trace with
  | nil => intro st hst o; simpa using hst o
  | cons it rest ih =>
    intro st hst o
    simp only [List.foldl_cons]
    refine ih (runIteration cfg st it) ?_ o
    intro o'
    have ha : totalPhases (runIteration cfg st it).attempted o' =
        totalPhases st.attempted o' + (if o' = iterOp cfg st it then 1 else 0) := by
      simp only [runIteration]
      exact totalPhases_bump2 _ _ _ _
    have hf : totalPhases (runIteration cfg st it).failed o' ≤
        totalPhases st.failed o' + (if o' = iterOp cfg st it then 1 else 0) := by
      simp only [runIteration]
      cases hfl : it.fails
      · simp only [Bool.false_eq_true, if_false]
        exact Nat.le_add_right _ _
      · simp only [if_true]
        rw [totalPhases_bump2]
    refine hf.trans ?_
    rw [ha]
    exact Nat.add_le_add_right (hst o') _

/-- C5: in an iteration whose operation function fails, the runner counts
exactly one failure for the executed operation under the completion phase,
still observes the latency, logs at error level, and invokes the operation
function exactly once (no retry); when the function succeeds, no
failed-counter label changes. -/
theorem runner_failure_accounting (cfg : RunConfig) (st : RunnerState) (it : IterDraws) :
    ((runIteration cfg st it).failed (iterOp cfg st it) (completePhase cfg it) =
      st.failed (iterOp cfg st it) (completePhase cfg it) + (if it.fails then 1 else 0)) ∧
    ((runIteration cfg st it).durObs (iterOp cfg st it) (completePhase cfg it) =
      st.durObs (iterOp cfg st it) (completePhase cfg it) + 1) ∧
    ((runIteration cfg st it).invocations (iterOp cfg st it) =
      st.invocations (iterOp cfg st it) + 1) ∧
    (it.fails = true →
      RunEvent.logError (iterOp cfg st it) ∈ (runIteration cfg st it).events) ∧
    (∀ op ph, ¬ (op = iterOp cfg st it ∧ ph = completePhase cfg it) →
      (runIteration cfg st it).failed op ph = st.failed op ph) := by
  refine ⟨?_, ?_, ?_, ?_, ?_⟩
  · simp only [runIteration]
    cases hfl : it.fails
    · simp [bump2]
    · simp [bump2]
  · simp [runIteration, bump2]
  · simp [runIteration, bump1]
  · intro hfl
    simp [runIteration, hfl]
  · intro op ph hne
    simp only [runIteration]
    cases hfl : it.fails
    · simp
    · simp only [if_true]
      show bump2 st.failed (iterOp cfg st it) (completePhase cfg it) op ph = st.failed op ph
      rw [bump2, if_neg hne]

/-- Witness for C5: in the concrete failing iteration of the counterexample
configuration, the failed counter of the executed operation at the
completion phase rises from 0 to exactly 1. -/
theorem runner_failure_accounting_witness :
    (runIteration ⟨["a"], [[1]], 0, 40, 10, none⟩ initRunnerState ⟨0, 0, 0, 20, true⟩).failed
      (iterOp ⟨["a"], [[1]], 0, 40, 10, none⟩ initRunnerState ⟨0, 0, 0, 20, true⟩)
      (completePhase ⟨["a"], [[1]], 0, 40, 10, none⟩ ⟨0, 0, 0, 20, true⟩) = 1 := by
  have h := (runner_failure_accounting ⟨["a"], [[1]], 0, 40, 10, none⟩ initRunnerState
    ⟨0, 0, 0, 20, true⟩).1
  simpa [initRunnerState] using h

/-- C6: in random think-time mode (no sleep configured) the think time is an
integer number of milliseconds in `[400, 5000)` computed from the runner's
own draw, and the iteration's event order places the think sleep after the
attempted-counter increment and before the operation's invocation. -/
theorem runner_think_time (cfg : RunConfig) (st : RunnerState) (it : IterDraws)
    (hs : cfg.sleepCfg = none) :
    (400 ≤ thinkDuration cfg it.thinkDraw ∧ thinkDuration cfg it.thinkDraw < 5000) ∧
    (runIteration cfg st it).events =
      st.events ++
        [RunEvent.attemptInc (iterOp cfg st it) (attemptPhase cfg it),
         RunEvent.sleep (thinkDuration cfg it.thinkDraw),
         RunEvent.invoke (iterOp cfg st it),
         RunEvent.observe (iterOp cfg st it) (completePhase cfg it)] ++
      (if it.fails then
        [RunEvent.logError (iterOp cfg st it),
         RunEvent.failedInc (iterOp cfg st it) (completePhase cfg it)]
       else []) := by
  constructor
  · simp only [thinkDuration, hs]
    have hm : it.thinkDraw % 4600 < 4600 := Nat.mod_lt _ (by norm_num)
    omega
  · rfl

/-- Witness for C6 at the draw 9999: the think time is 9999 % 4600 + 400 =
1199 milliseconds, inside `[400, 5000)`. -/
theorem runner_think_time_witness :
    400 ≤ thinkDuration ⟨["a"], [[1]], 0, 40, 0, none⟩ 9999 ∧
    thinkDuration ⟨["a"], [[1]], 0, 40, 0, none⟩ 9999 < 5000 := by
  exact (runner_think_time ⟨["a"], [[1]], 0, 40, 0, none⟩ initRunnerState
    ⟨0, 9999, 0, 0, false⟩ rfl).1

/-- State of one user runner's loop and of its interaction with the
supervisor's join group: whether the cancellation token has fired, whether
the run deadline has elapsed, how many times the runner has called
`wg.Done()`, whether the loop has returned, and how many new operations it
has started. -/
structure LoopState where
  cancelled : Bool
  timedOut : Bool
  doneCalls : ℕ
  returned : Bool
  attemptsStarted : ℕ

/-- One pass through the `select` of `runLoop` (runner): when the
cancellation token has fired or the deadline has elapsed, that ready case is
taken (never `default`), the branch calls `wg.Done()` and — the source has
no `return` statement there — control falls back into the `for` loop;
otherwise the `default` branch starts a new operation.  No branch sets
`returned`: the loop body has no exit. -/
def runLoopStep (s : LoopState) : LoopState :=
  if s.cancelled || s.timedOut then
    { s with doneCalls := s.doneCalls + 1 }
  else
    { s with attemptsStarted := s.attemptsStarted + 1 }

/-- `n` passes through the runner loop. -/
def runLoopSteps : ℕ → LoopState → LoopState
  | 0, s => s
  | n + 1, s => runLoopSteps n (runLoopStep s)

/-- C3, evaluated at a cancelled runner: after two passes the loop has
called `wg.Done()` twice — not exactly once — has not returned, and (the
part of the claim the code does honour) has started no new operation. -/
theorem runLoop_cancel_bug :
    (runLoopSteps 2 ⟨true, false, 0, false, 0⟩).doneCalls = 2 ∧
    (runLoopSteps 2 ⟨true, false, 0, false, 0⟩).returned = false ∧
    (runLoopSteps 2 ⟨true, false, 0, false, 0⟩).attemptsStarted = 0 := by
  decide

/-- The actions of the setup loader. -/
inductive SetupEvent where
  | enqueue (i : ℕ)
  | closeChannel
  | waitForWorkers
  | callWorkloadSetup
deriving DecidableEq, Repr

/-- The order of the staged `Setup`'s actions (workload runner) after the
worker pool is spawned: it enqueues the `numItems` generated documents and
then immediately calls the workload's `Setup` hook.  The source writes to no
shutdown channel, closes nothing and never waits on its `WaitGroup`, so the
trace holds no `closeChannel` and no `waitForWorkers` action. -/
def setupEvents (numItems : ℕ) : List SetupEvent :=
  ((List.range numItems).map SetupEvent.enqueue) ++ [SetupEvent.callWorkloadSetup]

/-- A writer worker's handling of one upsert result: an error panics
(fatal for setup), success continues. -/
def workerWriteOutcome (writeErr : Option String) : Except String Unit :=
  match writeErr with
  | some e => Except.error e
  | none => Except.ok ()

/-- C9, evaluated: for every item count, the setup loader's trace contains
no channel close and no wait on the worker pool, and the call of the
workload's setup hook is its very last action with nothing between the
enqueues and it — so the writes are not joined before the hook runs; a write
error is fatal for setup. -/
theorem setup_no_close_no_join (n : ℕ) :
    (setupEvents n).count SetupEvent.closeChannel = 0 ∧
    (setupEvents n).count SetupEvent.waitForWorkers = 0 ∧
    (setupEvents n).getLast? = some SetupEvent.callWorkloadSetup ∧
    workerWriteOutcome (some "Data load upsert failed.") =
      Except.error "Data load upsert failed." := by
  refine ⟨?_, ?_, ?_, rfl⟩
  · rw [List.count_eq_zero]
    simp [setupEvents]
  · rw [List.count_eq_zero]
    simp [setupEvents]
  · simp [setupEvents]

/-- The heap of allocated `rngSource`s, addressed by ℕ: `rand.NewSource` in
the runner allocates one mutable source per runner, and every `rand.Rand`
that is copied around keeps pointing at it.  A cell holds the source's
current state. -/
def SrcHeap : Type := ℕ → ℕ

/-- One draw through a pointer to a source: read the state at the address,
emit the drawn value, and write the stepped state back (a linear
congruential step standing in for Go's `rngSource`).  Every holder of the
same address observes the mutation. -/
def srcDraw (h : SrcHeap) (addr : ℕ) : ℕ × SrcHeap :=
  (h addr % 2147483647,
    fun a => if a = addr then (h addr * 48271 + 11) % 2147483647 else h a)

/-- Go's `rand.Rand` as a value that gets copied: its `src` interface field
holds the ADDRESS of the allocated source, so a struct copy copies the
pointer while the mutable source state stays on the heap, shared by all
copies. -/
structure RandHandle where
  srcAddr : ℕ
deriving DecidableEq, Repr

/-- Embedding of `Runctx` (workload/utils.go): the stored `rand.Rand` value
`r` and the logger `l` (opaque here). -/
structure Runctx where
  r : RandHandle
  l : String
deriving DecidableEq, Repr

/-- Embedding of `Runctx.Rand` (workload/utils.go): the method has a value
receiver, so Go copies the whole Runctx at the call and `&r.r` points into
that fresh copy — but the copied `rand.Rand`'s `src` field still holds the
same source pointer, so the returned generator draws from the original's
underlying source. -/
def Runctx.Rand (rc : Runctx) : RandHandle := rc.r

/-- `n` draws through a handle: the observed values, and the heap after the
shared source has been advanced `n` times. -/
def drawN : ℕ → RandHandle → SrcHeap → List ℕ × SrcHeap
  | 0, _, h => ([], h)
  | n + 1, g, h =>
    ((srcDraw h g.srcAddr).1 :: (drawN n g (srcDraw h g.srcAddr).2).1,
      (drawN n g (srcDraw h g.srcAddr).2).2)

/-- The claim's scenario on one Runctx value: call `rc.Rand()`, draw `n`
values through the returned generator, call `rc.Rand()` again on the same
Runctx value and draw `m` values through that; the result is the two
observed sequences and the final heap. -/
def twoRandCalls (rc : Runctx) (h : SrcHeap) (n m : ℕ) : List ℕ × List ℕ × SrcHeap :=
  ((drawN n (Runctx.Rand rc) h).1,
   (drawN m (Runctx.Rand rc) (drawN n (Runctx.Rand rc) h).2).1,
   (drawN m (Runctx.Rand rc) (drawN n (Runctx.Rand rc) h).2).2)

/-- C10 counterexample: two successive `Rand()` calls on the same Runctx
value do NOT observe identical random sequences.  With the source (at
address 0) in state 1, one draw through the first call's generator yields 1
and steps the shared source, so one draw through the second call's generator
yields 48282 ≠ 1: the copy shares the mutable source, and the first call's
draws advanced it. -/
theorem Runctx_rand_shared_source_cex :
    (twoRandCalls ⟨⟨0⟩, "log"⟩ (fun _ => 1) 1 1).1 = [1] ∧
    (twoRandCalls ⟨⟨0⟩, "log"⟩ (fun _ => 1) 1 1).2.1 = [48282] ∧
    (twoRandCalls ⟨⟨0⟩, "log"⟩ (fun _ => 1) 1 1).1 ≠
      (twoRandCalls ⟨⟨0⟩, "log"⟩ (fun _ => 1) 1 1).2.1 := by
  refine ⟨rfl, rfl, ?_⟩
  decide

lemma drawN_append (g : RandHandle) :
    ∀ (n m : ℕ) (h : SrcHeap),
      (drawN n g h).1 ++ (drawN m g (drawN n g h).2).1 = (drawN (n + m) g h).1 ∧
      (drawN m g (drawN n g h).2).2 = (drawN (n + m) g h).2 := by
  intro n
  induction n with
  | zero => intro m h; simp [drawN]
  | succ n ih =>
    intro m h
    have e : n + 1 + m = (n + m) + 1 := by omega
    rw [e]
    simp only [drawN, List.cons_append, List.cons.injEq, true_and]
    exact ih m (srcDraw h g.srcAddr).2

/-- C10 (amended): the value receiver of `Rand()` copies the Runctx struct,
so the stored `rand.Rand` field itself is never changed — both calls return
a handle carrying the same source pointer — but the copies share the one
mutable source, so draws through the generators of two successive `Rand()`
calls continue a single stream: the two observed sequences concatenate to
the sequence of `n + m` draws of that one source (rather than repeating the
same sequence twice). -/
theorem Runctx_rand_shared_source (rc : Runctx) (h : SrcHeap) (n m : ℕ) :
    (Runctx.Rand rc = rc.r) ∧
    ((twoRandCalls rc h n m).1 ++ (twoRandCalls rc h n m).2.1 =
      (drawN (n + m) (Runctx.Rand rc) h).1) :=
  ⟨rfl, (drawN_append (Runctx.Rand rc) n m h).1⟩

end Spectroperf
